import Mathlib

/-!
# Verification of the imgtool batch image-compression orchestrator

Shallow embedding of `src/imgtool.js` (a Node.js batch media-processing
orchestrator).  Pure functions of the source (`extOf`, `baseNameNoExt`,
`matchFile`, `outPathForStep`, `pct`, the CSV row construction) are
translated into Lean functions; the Node `path` module (posix flavour) is
modelled on strings; the effectful parts (`processOne`, the worker
scheduler in `main`) are modelled by explicit traces: `processOne` takes
an environment oracle describing the outcomes of file-system and external
tool operations and returns the list of attempted side effects together
with the list of CSV metrics rows it appends; the scheduler is an
interleaving transition system over a shared claim index.

Modelling choices: JS strings are Lean `String`s (`slice` counts
characters rather than UTF-16 units); JS numbers arising in metrics are
exact (`Nat`/`Int`/`ℚ`) — `toFixed(2)` is modelled by exact rational
rounding per the ECMAScript algorithm; `toLowerCase` is modelled
ASCII-only (`Char.toLower`), which agrees with JS on file extensions.
`fsp.mkdir` / `fsp.appendFile` are modelled as non-failing effects (their
failure modes are outside every claim's scope); `fileSize` never throws
in the source (it catches internally and returns `null`), which the
oracle's `Option Nat` fields reflect.
-/

namespace ImgTool

/-! ## Character-list string utilities (JS / Node semantics) -/

/-- Is `a` a (contiguous) prefix of `b`? -/
def listPre : List Char → List Char → Bool
  | [], _ => true
  | _ :: _, [] => false
  | a :: as, b :: bs => a = b && listPre as bs

/-- Does `l` contain `pat` as a contiguous sublist?  Models JS
`String.prototype.includes`. -/
def listSub (pat : List Char) : List Char → Bool
  | [] => listPre pat []
  | c :: rest => listPre pat (c :: rest) || listSub pat rest

/-- JS `s.includes(pat)`: substring containment. -/
def hasSubstr (s pat : String) : Bool := listSub pat.toList s.toList

/-- JS `s.startsWith(p)`. -/
def strStarts (s p : String) : Bool := listPre p.toList s.toList

/-- JS `s.endsWith(p)`. -/
def strEnds (s p : String) : Bool := listPre p.toList.reverse s.toList.reverse

/-- Split a character list at every occurrence of the separator
(semantics of JS `s.split(sep)` for a one-character separator). -/
def splitSep (sep : Char) : List Char → List (List Char)
  | [] => [[]]
  | c :: rest =>
    if c = sep then [] :: splitSep sep rest
    else
      match splitSep sep rest with
      | [] => [[c]]
      | h :: t => (c :: h) :: t

/-- JS `s.split("/")` on strings. -/
def splitSlash (s : String) : List String := (splitSep '/' s.toList).map List.asString

/-- Join string parts with a separator (JS `parts.join(sep)`). -/
def joinSep (sep : String) : List String → String
  | [] => ""
  | x :: xs =>
    match xs with
    | [] => x
    | _ :: _ => x ++ sep ++ joinSep sep xs

/-- ASCII lower-casing, the model of JS `toLowerCase` on extensions. -/
def lcase (s : String) : String := (s.toList.map Char.toLower).asString

/-- JS falsy-string coalescing `a || b` (empty string is falsy). -/
def jsOr (a b : String) : String := if a = "" then b else a

def optStr : Option String → String
  | some s => s
  | none => ""

/-! ## Node `path` module, posix flavour -/

/-- One step of Node's `normalizeString` component processing: drop empty
and `"."` components, resolve `".."` against the accumulator (components
are accumulated in reverse).  `abs` tells whether the path is absolute,
in which case `".."` cannot climb above the root. -/
def normStep (abs : Bool) (acc : List String) (c : String) : List String :=
  if c = "" ∨ c = "." then acc
  else if c = ".." then
    match acc with
    | [] => if abs then [] else [".."]
    | a :: rest => if a = ".." then ".." :: acc else rest
  else c :: acc

/-- Normalised components of a path string. -/
def pcomps (abs : Bool) (p : String) : List String :=
  ((splitSlash p).foldl (normStep abs) []).reverse

/-- Node `path.posix.normalize`. -/
def pnormalize (p : String) : String :=
  if p = "" then "." else
  let abs := strStarts p "/"
  let trail := strEnds p "/"
  let body := joinSep "/" (pcomps abs p)
  if body = "" then (if abs then "/" else if trail then "./" else ".")
  else (if abs then "/" ++ body else body) ++ (if trail then "/" else "")

/-- Node `path.posix.join`. -/
def pjoin (parts : List String) : String :=
  let joined := joinSep "/" (parts.filter (· ≠ ""))
  if joined = "" then "." else pnormalize joined

/-- Node `path.posix.resolve` restricted to two arguments with an
absolute current working directory. -/
def presolve (cwd p : String) : String :=
  let full := if strStarts p "/" then p else cwd ++ "/" ++ p
  "/" ++ joinSep "/" (pcomps true full)

/-- Node `path.posix.basename` (one-argument form): the last non-empty
path component. -/
def pbasename (p : String) : String :=
  (((splitSlash p).filter (· ≠ "")).getLast?).getD ""

/-- Node `path.posix.dirname`, following the character scan of the Node
implementation (index 0 is never examined, trailing slashes skipped). -/
def pdirname (p : String) : String :=
  if p = "" then "." else
  let cs := p.toList
  let hasRoot := cs.head? = some '/'
  let r1 := cs.reverse.dropWhile (· = '/')
  let r2 := r1.dropWhile (· ≠ '/')
  if r2.length ≤ 1 then (if hasRoot then "/" else ".")
  else if hasRoot ∧ r2.length - 1 = 1 then "//"
  else (cs.take (r2.length - 1)).asString

/-- Index of the last occurrence of `'.'` in a character list. -/
def lastDot : List Char → Nat → Option Nat → Option Nat
  | [], _, acc => acc
  | c :: rest, k, acc => lastDot rest (k + 1) (if c = '.' then some k else acc)

/-- Node `path.posix.extname`: the suffix of the basename from its last
dot, empty when the dot is leading or absent (and for the special
basename `".."`). -/
def extname (p : String) : String :=
  let b := pbasename p
  if b = ".." then "" else
  match lastDot b.toList 0 none with
  | none => ""
  | some 0 => ""
  | some i => (b.toList.drop i).asString

/-- Node `path.posix.basename(p, suf)` as used by the source: the
basename with the suffix `suf` stripped when it is a proper suffix. -/
def pbasenameSuf (p suf : String) : String :=
  let b := pbasename p
  if suf ≠ "" ∧ suf.length < b.length ∧ strEnds b suf = true
  then (b.toList.take (b.length - suf.length)).asString
  else b

/-- Node `path.posix.relative` for absolute arguments: drop the common
component prefix, climb with `".."` for what remains of `from`. -/
def dropCommon : List String → List String → List String × List String
  | a :: as, b :: bs => if a = b then dropCommon as bs else (a :: as, b :: bs)
  | as, bs => (as, bs)

def prelative (f t : String) : String :=
  let fc := pcomps true f
  let tc := pcomps true t
  let (fr, tr) := dropCommon fc tc
  joinSep "/" (List.replicate fr.length ".." ++ tr)

/-! ## Source pure helpers (`src/imgtool.js` lines 27–51) -/

/-- `function extOf(p) { return path.extname(p).slice(1).toLowerCase(); }` -/
def extOf (p : String) : String := lcase ((extname p).toList.drop 1).asString

/-- The extension before lower-casing, `path.extname(p).slice(1)` —
used only to phrase the spec's "original extension". -/
def rawExtOf (p : String) : String := ((extname p).toList.drop 1).asString

/-- `function baseNameNoExt(p) { return path.basename(p, path.extname(p)); }` -/
def baseNameNoExt (p : String) : String := pbasenameSuf p (extname p)

/-- Configuration data model, the fields of `config.json` the source
reads. `profiles` is the JSON object `cfg.profiles` as a partial map. -/
structure Tools where
  pngquant : String
  mozjpeg : String
  magick : String

structure PathsCfg where
  inputDir : String
  outputDir : String
  tools : Tools

structure Selection where
  includeExt : List String
  excludePatterns : List String

structure PipelineStep where
  name : String
  enabled : Bool
  matchExt : List String
  suffix : Option String
  profile : String
deriving DecidableEq

structure Profile where
  pngquant : Option (List String)
  mozjpeg : Option (List String)
  imagemagick_png : Option (List String)
  imagemagick_jpg : Option (List String)

structure OptionsCfg where
  recursive : Bool
  preserveTree : Bool
  dryRun : Bool
  concurrency : Option Nat

structure LoggingCfg where
  writePerFile : Bool
  csvPath : String

structure Config where
  paths : PathsCfg
  selection : Selection
  pipeline : List PipelineStep
  profiles : String → Option Profile
  options : OptionsCfg
  logging : LoggingCfg

/-- `function matchFile(relPath, cfg)` (lines 30–34). -/
def matchFile (relPath : String) (cfg : Config) : Bool :=
  let ext := extOf relPath
  if !(cfg.selection.includeExt.contains ext) then false
  else !(cfg.selection.excludePatterns.any (fun pat => hasSubstr relPath pat))

/-- `function outPathForStep(inputAbs, inRoot, outRoot, preserveTree,
stepSuffix, forcedExt)` (lines 37–44).  `forcedExt || extOf(rel)` is JS
falsy coalescing. -/
def outPathForStep (inputAbs inRoot outRoot : String) (preserveTree : Bool)
    (stepSuffix : String) (forcedExt : Option String) : String :=
  let rel := prelative inRoot inputAbs
  let dir := if preserveTree then pdirname rel else ""
  let name := joinSep "__" (splitSlash (baseNameNoExt rel))
  let ext := jsOr (optStr forcedExt) (extOf rel)
  let filename := name ++ stepSuffix ++ "." ++ ext
  pjoin [outRoot, dir, filename]

/-- ECMAScript `Number.prototype.toFixed(2)` of the exact rational
`n / d` (`d > 0`): the sign of the value, then the 2-decimal digit
string of the integer closest to `|n| / d * 100` (ties toward the
larger), i.e. `⌊(|n| * 200 + d) / (2 * d)⌋`. -/
def toFixed2 (n : ℤ) (d : Nat) : String :=
  let sgn := if n < 0 then "-" else ""
  let m := (n.natAbs * 200 + d) / (2 * d)
  sgn ++ toString (m / 100) ++ "." ++ (if m % 100 < 10 then "0" else "") ++ toString (m % 100)

/-- `function pct(a, b) { if (a == null || a === 0) return '';
return (((b - a) / a) * 100).toFixed(2); }` (line 51), at the byte-count
types `processOne` calls it with; the rational `((b - a) / a) * 100 =
((b - a) * 100) / a` is kept exact as a numerator/denominator pair. -/
def pct (a : Option Nat) (b : Nat) : String :=
  match a with
  | none => ""
  | some a => if a = 0 then "" else toFixed2 (((b : ℤ) - (a : ℤ)) * 100) a

/-! ## The effect/row trace model of `processOne` (lines 53–126) -/

/-- A rejected JS promise / thrown `Error` as `processOne` observes it:
`execFileAsync` attaches the child's stderr, plain `Error`s have only a
message. -/
structure JsError where
  stderr : Option String
  message : String
deriving DecidableEq

/-- Environment oracle for one pipeline step of one file: the result of
`await fileSize(srcForStep)`, of the tool invocation / dry-run copy, and
of `await fileSize(outFile)` after a successful attempt.  A successful
tool invocation carries its `elapsedMs`. -/
structure StepEnv where
  srcSize : Option Nat
  toolResult : Except JsError Nat
  copyResult : Except JsError Unit
  outSize : Option Nat

/-- Environment oracle for a whole `processOne` call: the working
directory `path.resolve` resolves against, `await fileSize(inputAbs)`
at entry, and the per-pipeline-index step outcomes. -/
structure Env where
  cwd : String
  origSize : Option Nat
  steps : Nat → StepEnv

/-- Side effects `processOne` attempts, in order: `ensureDirFor`
(mkdir of the parent), the dry-run `copyFile`, or an external tool
invocation `execFile(tool, args)`. -/
inductive Effect where
  | ensureDir (dir : String)
  | copy (src dst : String)
  | exec (tool : String) (args : List String)
deriving DecidableEq

/-- One CSV metrics row, fields in source order
`file,stage,src_size,out_size,delta,delta_pct,elapsed_ms,status,message`,
each already stringified as the source's `('' + v)` does. -/
structure Row where
  file : String
  stage : String
  src_size : String
  out_size : String
  delta : String
  delta_pct : String
  elapsed_ms : String
  status : String
  message : String
deriving DecidableEq

/-- `v ?? ''` for an optional byte count. -/
def optNatStr : Option Nat → String
  | some n => toString n
  | none => ""

/-- JS `('' + v).replaceAll(',', ' ')`. -/
def stripCommas (s : String) : String :=
  (s.toList.map (fun c => if c = ',' then ' ' else c)).asString

/-- `JSON.stringify` of a string value. -/
def jsonEscapeChar (c : Char) : String :=
  if c = '"' then "\\\"" else if c = '\\' then "\\\\"
  else if c = '\n' then "\\n" else if c = '\r' then "\\r" else if c = '\t' then "\\t"
  else if c = '\x08' then "\\b" else if c = '\x0c' then "\\f"
  else if c.toNat < 32 then "\\u00" ++ toString (c.toNat / 16) ++ toString (c.toNat % 16)
  else String.singleton c

def jsonStringify (s : String) : String :=
  "\"" ++ String.join (s.toList.map jsonEscapeChar) ++ "\""

/-- The rendered CSV line: every field comma-stripped, joined by commas
(line 117 / 124). -/
def renderRow (r : Row) : String :=
  joinSep ","
    ([r.file, r.stage, r.src_size, r.out_size, r.delta, r.delta_pct,
      r.elapsed_ms, r.status, r.message].map stripCommas)

/-- Global replacement of `/\r?\n/` by a space (line 109). -/
def replNl : List Char → List Char
  | [] => []
  | '\r' :: '\n' :: rest => ' ' :: replNl rest
  | '\n' :: rest => ' ' :: replNl rest
  | c :: rest => c :: replNl rest

/-- `(e.stderr || e.message || '').replace(/\r?\n/g, ' ').slice(0, 300)`
(line 109). -/
def errText (e : JsError) : String :=
  let raw := jsOr (jsOr (optStr e.stderr) e.message) ""
  ((replNl raw.toList).take 300).asString

/-- The per-step CSV row (lines 112–118): `[outFile, step.name,
before ?? '', after ?? '', delta, deltaPct, elapsedMs, status,
JSON.stringify(message || '')]`. -/
def mkStepRow (outFile stage : String) (before after : Option Nat)
    (elapsedMs : Nat) (status message : String) : Row :=
  { file := outFile
    stage := stage
    src_size := optNatStr before
    out_size := optNatStr after
    delta := match after, before with
      | some b, some a => toString ((b : ℤ) - (a : ℤ))
      | _, _ => ""
    delta_pct := match after, before with
      | some b, some a => pct (some a) b
      | _, _ => ""
    elapsed_ms := toString elapsedMs
    status := status
    message := jsonStringify (jsOr message "") }

/-- The terminal summary row (lines 122–125): `[inputAbs, 'ORIGINAL',
origSize ?? '', origSize ?? '', 0, '0.00', '', 'ok', '']`. -/
def mkOriginalRow (inputAbs : String) (origSize : Option Nat) : Row :=
  { file := inputAbs
    stage := "ORIGINAL"
    src_size := optNatStr origSize
    out_size := optNatStr origSize
    delta := "0"
    delta_pct := "0.00"
    elapsed_ms := ""
    status := "ok"
    message := "" }

/-- Line 63: `const forcedExt = (step.name === 'mozjpeg') ? 'jpg' : null`. -/
def stepForcedExt (step : PipelineStep) : Option String :=
  if step.name = "mozjpeg" then some "jpg" else none

/-- Line 64: the derived output path of a step. -/
def stepOutFile (cfg : Config) (inputAbs inRoot outRoot : String)
    (step : PipelineStep) : String :=
  outPathForStep inputAbs inRoot outRoot cfg.options.preserveTree
    (optStr step.suffix) (stepForcedExt step)

/-- Lines 92–97: the scan over the profile's arguments keeping the last
trailing-colon token as format token (all arguments are JSON strings
here, the source's `typeof a === 'string'` guard) and the remaining
arguments in order. -/
def scanFmt (args : List String) : Option String × List String :=
  args.foldl
    (fun acc a => if strEnds a ":" then (some a, acc.2) else (acc.1, acc.2 ++ [a]))
    (none, [])

/-- Lines 59–61: a step is attempted iff it is enabled and the input's
extension is in its match set. -/
def stepExecutes (inputAbs : String) (step : PipelineStep) : Bool :=
  step.enabled && step.matchExt.contains (extOf inputAbs)

/-- Lines 87–89: the profile arguments of the `imagemagick_compress`
step, keyed on the input's extension. -/
def magickProfArgs (cfg : Config) (inExt : String) (step : PipelineStep) : List String :=
  if inExt = "png" then ((cfg.profiles step.profile).bind Profile.imagemagick_png).getD []
  else ((cfg.profiles step.profile).bind Profile.imagemagick_jpg).getD []

/-- The body of the `try` block (lines 71–105): the dry-run copy or the
string-keyed tool dispatch; yields the step's result (elapsed time on
success, the thrown error otherwise) and the effect attempted. -/
def runStepCore (cfg : Config) (inputAbs outFile inExt : String)
    (step : PipelineStep) (se : StepEnv) : Except JsError Nat × List Effect :=
  if cfg.options.dryRun then
    (se.copyResult.map (fun _ => 0), [Effect.copy inputAbs outFile])
  else if step.name = "pngquant" then
    let profArgs := ((cfg.profiles step.profile).bind Profile.pngquant).getD []
    (se.toolResult,
      [Effect.exec cfg.paths.tools.pngquant (profArgs ++ ["--output", outFile, inputAbs])])
  else if step.name = "mozjpeg" then
    let profArgs := ((cfg.profiles step.profile).bind Profile.mozjpeg).getD []
    (se.toolResult,
      [Effect.exec cfg.paths.tools.mozjpeg (profArgs ++ ["-outfile", outFile, inputAbs])])
  else if step.name = "imagemagick_compress" then
    let profArgs := magickProfArgs cfg inExt step
    let scanned := scanFmt profArgs
    let outTarget := match scanned.1 with
      | some fp => fp ++ outFile
      | none => outFile
    (se.toolResult,
      [Effect.exec cfg.paths.tools.magick (["convert", inputAbs] ++ scanned.2 ++ [outTarget])])
  else
    (Except.error { stderr := none, message := "Unknown step: " ++ step.name }, [])

/-- One iteration of the pipeline loop (lines 58–120) for a step that is
attempted: output path derivation, `ensureDirFor`, the `try` block, and
the conditional per-step metrics row. -/
def runStep (cfg : Config) (inputAbs inRoot outRoot : String)
    (step : PipelineStep) (se : StepEnv) : List Effect × List Row :=
  let outFile := stepOutFile cfg inputAbs inRoot outRoot step
  let core := runStepCore cfg inputAbs outFile (extOf inputAbs) step se
  let rows :=
    if cfg.logging.writePerFile then
      match core.1 with
      | Except.ok t => [mkStepRow outFile step.name se.srcSize se.outSize t "ok" ""]
      | Except.error e => [mkStepRow outFile step.name se.srcSize none 0 "error" (errText e)]
    else []
  (Effect.ensureDir (pdirname outFile) :: core.2, rows)

/-- The `for (const step of cfg.pipeline)` loop, threading the pipeline
index into the environment oracle. -/
def runPipeline (cfg : Config) (env : Env) (inputAbs inRoot outRoot : String) :
    List PipelineStep → Nat → List Effect × List Row
  | [], _ => ([], [])
  | step :: rest, k =>
    let tail := runPipeline cfg env inputAbs inRoot outRoot rest (k + 1)
    if stepExecutes inputAbs step then
      let this := runStep cfg inputAbs inRoot outRoot step (env.steps k)
      (this.1 ++ tail.1, this.2 ++ tail.2)
    else tail

/-- `async function processOne(inputAbs, cfg)` (lines 53–126): the
attempted effects and the appended CSV rows, ending with the
unconditional `ORIGINAL` summary row. -/
def processOne (cfg : Config) (env : Env) (inputAbs : String) : List Effect × List Row :=
  let inRoot := presolve env.cwd cfg.paths.inputDir
  let outRoot := presolve env.cwd cfg.paths.outputDir
  let pr := runPipeline cfg env inputAbs inRoot outRoot cfg.pipeline 0
  (pr.1, pr.2 ++ [mkOriginalRow inputAbs env.origSize])

/-! ## Discovery and scheduling (`main`, lines 128–154) -/

/-- Lines 135–140: the task list built from the candidate files `walk`
enumerates, filtered by `matchFile` on the path relative to the resolved
input root. -/
def tasksOf (cfg : Config) (cwd : String) (cands : List String) : List String :=
  let inRoot := presolve cwd cfg.paths.inputDir
  cands.filter (fun abs => matchFile (prelative inRoot abs) cfg)

/-- Line 142: `Math.max(1, Number(cfg.options.concurrency || 2))` —
a missing or zero (JS-falsy) concurrency defaults to 2, and the result
is at least 1. -/
def concOf (c : Option Nat) : Nat :=
  max 1 (match c with
    | none => 2
    | some 0 => 2
    | some k => k)

/-- One worker of the pool: the indices it has claimed (in claim order)
and whether its loop has exited. -/
structure WorkerSt where
  claimed : List Nat
  halted : Bool
deriving DecidableEq

/-- Scheduler state: the shared counter `idx` and the workers. -/
structure SchedSt where
  idx : Nat
  workers : List WorkerSt
deriving DecidableEq

/-- The effect of `const i = idx++; if (i >= tasks.length) break;` on
the claiming worker: below the task count the index is claimed (the
worker then runs `processOne` — whose success or failure is caught at
line 149 and does not change the worker's control flow), otherwise the
worker halts. -/
def claimUpdate (len i : Nat) (w : WorkerSt) : WorkerSt :=
  if i < len then { claimed := w.claimed ++ [i], halted := false }
  else { claimed := w.claimed, halted := true }

/-- Interleaving semantics of the worker pool (lines 143–152): at each
step some non-halted worker atomically executes `idx++` and claims or
halts.  `idx++` is a synchronous JS expression, hence atomic between
`await` points. -/
inductive SchedStep (len : Nat) : SchedSt → SchedSt → Prop
  | claim (s : SchedSt) (w : Fin s.workers.length)
      (hact : (s.workers.get w).halted = false) :
      SchedStep len s
        ⟨s.idx + 1, s.workers.set w (claimUpdate len s.idx (s.workers.get w))⟩

/-- Initial pool: `idx = 0`, `conc` fresh workers. -/
def initSched (n : Nat) : SchedSt := ⟨0, List.replicate n ⟨[], false⟩⟩

/-- All indices claimed-and-processed across the pool, per worker in
claim order. -/
def claimedAll (s : SchedSt) : List Nat := (s.workers.map WorkerSt.claimed).flatten

/-- `Promise.all` has resolved: every worker's loop has exited. -/
def allHalted (s : SchedSt) : Prop := ∀ w ∈ s.workers, w.halted = true

/-- The metrics rows the `k`-th pipeline entry contributes to a
`processOne` run: none when there is no such entry or it is skipped
(disabled / extension mismatch), the `runStep` rows otherwise. -/
def stepRowsAt (cfg : Config) (env : Env) (inputAbs inRoot outRoot : String)
    (k : Nat) : List Row :=
  match cfg.pipeline[k]? with
  | some step =>
    if stepExecutes inputAbs step then
      (runStep cfg inputAbs inRoot outRoot step (env.steps k)).2
    else []
  | none => []

/-- The transformation-source discipline of the `try` block: every
dry-run copy reads the original input path, and every tool invocation
carries the original input path in its source slot (last argument for
`pngquant`/`mozjpeg`, the argument after `convert` for imagemagick). -/
def srcShape (inputAbs : String) : Effect → Prop
  | Effect.ensureDir _ => True
  | Effect.copy s _ => s = inputAbs
  | Effect.exec _ args =>
      (∃ pre, args = pre ++ [inputAbs]) ∨ ∃ rest, args = "convert" :: inputAbs :: rest

/-! ## Spec-side formulas (refinement targets) -/

/-- The output-path formula exactly as claim C3 words it: the extension
used when none is forced is "the input's original extension"
(case-preserved).  Everything else follows the spec's wording: output
root, then the input's directory relative to the input root (empty when
the tree is not preserved), then a filename of base name (extension
stripped, separators inside joined by `"__"`), step suffix, a dot and
the extension. -/
def specOutPath (inputAbs inRoot outRoot : String) (preserveTree : Bool)
    (stepSuffix : String) (forcedExt : Option String) : String :=
  let rel := prelative inRoot inputAbs
  let dir := if preserveTree then pdirname rel else ""
  let name := joinSep "__" (splitSlash (baseNameNoExt rel))
  let ext := jsOr (optStr forcedExt) (rawExtOf rel)
  pjoin [outRoot, dir, name ++ stepSuffix ++ "." ++ ext]

/-- C3's formula amended minimally: the original extension is used
*lowercased* (the source computes it with `extOf`, which lower-cases). -/
def specOutPathLower (inputAbs inRoot outRoot : String) (preserveTree : Bool)
    (stepSuffix : String) (forcedExt : Option String) : String :=
  let rel := prelative inRoot inputAbs
  let dir := if preserveTree then pdirname rel else ""
  let name := joinSep "__" (splitSlash (baseNameNoExt rel))
  let ext := jsOr (optStr forcedExt) (lcase (rawExtOf rel))
  pjoin [outRoot, dir, name ++ stepSuffix ++ "." ++ ext]

instance : DecidableEq (Except JsError Nat) := fun a b =>
  match a, b with
  | Except.error x, Except.error y =>
    if h : x = y then isTrue (by rw [h]) else isFalse (by simp [h])
  | Except.ok x, Except.ok y =>
    if h : x = y then isTrue (by rw [h]) else isFalse (by simp [h])
  | Except.error _, Except.ok _ => isFalse (by simp)
  | Except.ok _, Except.error _ => isFalse (by simp)

/-! ## Theorems -/

/-- C3, counterexample: for the input `/in/A.PNG` (upper-case
extension) the path the source derives ends in the lowercased `.png`,
not the original `.PNG` the claim's formula prescribes. -/
theorem c3_counterexample :
    outPathForStep "/in/A.PNG" "/in" "/out" false "_s" none = "/out/A_s.png" ∧
    specOutPath "/in/A.PNG" "/in" "/out" false "_s" none = "/out/A_s.PNG" ∧
    outPathForStep "/in/A.PNG" "/in" "/out" false "_s" none ≠
      specOutPath "/in/A.PNG" "/in" "/out" false "_s" none := by
  refine ⟨by decide, by decide, by decide⟩

/-- C3, amended: `outPathForStep` is a pure deterministic function (a
Lean function of its six arguments, so identical arguments always give
the identical path) and for every argument tuple its result equals the
claim's formula with the non-forced extension lowercased: output root
joined with the input's directory relative to the input root (empty if
preserve-tree is false), joined with the base name (extension stripped,
path separators inside joined by `"__"`), the step suffix, a dot, and
the forced extension if given else the input's lowercased original
extension. -/
theorem c3_outpath_formula (inputAbs inRoot outRoot : String) (preserveTree : Bool)
    (stepSuffix : String) (forcedExt : Option String) :
    outPathForStep inputAbs inRoot outRoot preserveTree stepSuffix forcedExt =
      specOutPathLower inputAbs inRoot outRoot preserveTree stepSuffix forcedExt := rfl

/-! ## C4: exactly one terminal ORIGINAL row -/

/-- C4: for every configuration, environment outcome and input file,
the rows `processOne` appends end with exactly one terminal row, the
`ORIGINAL` summary carrying the original file's size as both
`src_size` and `out_size`, delta `0`, `delta_pct` `0.00` and status
`ok` — whatever the pipeline did and whether or not per-step logging is
enabled. -/
theorem c4_terminal_original (cfg : Config) (env : Env) (inputAbs : String) :
    (∃ stepRows, (processOne cfg env inputAbs).2 =
        stepRows ++ [mkOriginalRow inputAbs env.origSize]) ∧
    (mkOriginalRow inputAbs env.origSize).stage = "ORIGINAL" ∧
    (mkOriginalRow inputAbs env.origSize).src_size = optNatStr env.origSize ∧
    (mkOriginalRow inputAbs env.origSize).out_size = optNatStr env.origSize ∧
    (mkOriginalRow inputAbs env.origSize).delta = "0" ∧
    (mkOriginalRow inputAbs env.origSize).status = "ok" :=
  ⟨⟨(runPipeline cfg env inputAbs (presolve env.cwd cfg.paths.inputDir)
      (presolve env.cwd cfg.paths.outputDir) cfg.pipeline 0).2, rfl⟩,
   rfl, rfl, rfl, rfl, rfl⟩

/-! ## C9: the forced output extension -/

/-- C9: the output path a step derives always comes from
`outPathForStep` with the forced extension `jpg` exactly when the
step's name is `mozjpeg`; spelling the formula out, the filename part
ends in `"." ++ "jpg"` for `mozjpeg` steps and in `"." ++ extOf rel`
(the input's lowercased original extension) for every other step
name. -/
theorem c9_forced_extension (cfg : Config) (inputAbs inRoot outRoot : String)
    (step : PipelineStep) :
    stepOutFile cfg inputAbs inRoot outRoot step =
      pjoin [outRoot,
             (if cfg.options.preserveTree then pdirname (prelative inRoot inputAbs) else ""),
             joinSep "__" (splitSlash (baseNameNoExt (prelative inRoot inputAbs)))
               ++ optStr step.suffix ++ "."
               ++ (if step.name = "mozjpeg" then "jpg"
                   else extOf (prelative inRoot inputAbs))] := by
  unfold stepOutFile outPathForStep stepForcedExt
  by_cases h : step.name = "mozjpeg" <;> simp [h, jsOr, optStr]

/-! ## C8 and C10: profile argument handling -/

theorem or_some_left {α : Type _} (x : Option α) (a : α) (y : Option α) :
    (Option.or x (some a)).or y = Option.or x (some a) := by
  cases x <;> rfl

theorem getLast?_cons_or {α : Type _} (a : α) (l : List α) :
    (a :: l).getLast? = Option.or l.getLast? (some a) := by
  induction l generalizing a with
  | nil => rfl
  | cons b bs ih =>
    rw [List.getLast?_cons_cons, ih b]
    cases hx : bs.getLast? <;> simp [Option.or]

theorem scanFmt_foldl (args : List String) (fp0 : Option String) (c0 : List String) :
    args.foldl
      (fun acc a => if strEnds a ":" then (some a, acc.2) else (acc.1, acc.2 ++ [a]))
      (fp0, c0) =
    (Option.or ((args.filter (fun a => strEnds a ":")).getLast?) fp0,
     c0 ++ args.filter (fun a => !(strEnds a ":"))) := by
  induction args generalizing fp0 c0 with
  | nil => simp [Option.or]
  | cons a as ih =>
    by_cases h : strEnds a ":" = true
    · simp [List.foldl_cons, h, ih, List.filter_cons, getLast?_cons_or, or_some_left]
    · simp [List.foldl_cons, h, ih, List.filter_cons]

/-- The scan at lines 92–97 in closed form: the format token is the
last trailing-colon argument (if any), the clean arguments are the
remaining ones in order. -/
theorem scanFmt_eq (args : List String) :
    scanFmt args =
      ((args.filter (fun a => strEnds a ":")).getLast?,
       args.filter (fun a => !(strEnds a ":"))) := by
  unfold scanFmt
  rw [scanFmt_foldl]
  simp [Option.or_none]

/-- C8: in a real (non-dry) run, the `imagemagick_compress` step strips
every trailing-colon argument from its profile and prepends the last
such token directly onto the output path handed to the tool, while the
`pngquant` and `mozjpeg` steps pass their profile arguments verbatim —
no colon interpretation — with only the fixed output/input arguments
appended. -/
theorem c8_format_token (cfg : Config) (inputAbs outFile inExt : String)
    (step : PipelineStep) (se : StepEnv) (hdry : cfg.options.dryRun = false) :
    (step.name = "imagemagick_compress" →
      runStepCore cfg inputAbs outFile inExt step se =
        (se.toolResult,
         [Effect.exec cfg.paths.tools.magick
           (["convert", inputAbs]
             ++ (magickProfArgs cfg inExt step).filter (fun a => !(strEnds a ":"))
             ++ [match ((magickProfArgs cfg inExt step).filter
                     (fun a => strEnds a ":")).getLast? with
                 | some fp => fp ++ outFile
                 | none => outFile])])) ∧
    (step.name = "pngquant" →
      runStepCore cfg inputAbs outFile inExt step se =
        (se.toolResult,
         [Effect.exec cfg.paths.tools.pngquant
           (((cfg.profiles step.profile).bind Profile.pngquant).getD []
             ++ ["--output", outFile, inputAbs])])) ∧
    (step.name = "mozjpeg" →
      runStepCore cfg inputAbs outFile inExt step se =
        (se.toolResult,
         [Effect.exec cfg.paths.tools.mozjpeg
           (((cfg.profiles step.profile).bind Profile.mozjpeg).getD []
             ++ ["-outfile", outFile, inputAbs])])) := by
  refine ⟨fun h => ?_, fun h => ?_, fun h => ?_⟩ <;>
    simp only [runStepCore, hdry, Bool.false_eq_true, if_false, h, scanFmt_eq] <;>
    simp

/-- C8 witness: a concrete `imagemagick_compress` invocation with the
profile `["-strip", "PNG8:"]` strips the `PNG8:` token from the
argument list and glues it onto the front of the output path. -/
theorem c8_format_token_witness :
    runStepCore
      { paths := { inputDir := "in", outputDir := "out",
                   tools := { pngquant := "pngquant", mozjpeg := "cjpeg", magick := "magick" } }
        selection := { includeExt := ["png"], excludePatterns := [] }
        pipeline := []
        profiles := fun p => if p = "default" then
            some { pngquant := none, mozjpeg := none,
                   imagemagick_png := some ["-strip", "PNG8:"], imagemagick_jpg := none }
          else none
        options := { recursive := true, preserveTree := false, dryRun := false,
                     concurrency := some 2 }
        logging := { writePerFile := true, csvPath := "log.csv" } }
      "/in/a.png" "/out/a_c.png" "png"
      { name := "imagemagick_compress", enabled := true, matchExt := ["png"],
        suffix := some "_c", profile := "default" }
      { srcSize := some 100, toolResult := Except.ok 5, copyResult := Except.ok (),
        outSize := some 60 } =
    (Except.ok 5,
     [Effect.exec "magick" ["convert", "/in/a.png", "-strip", "PNG8:/out/a_c.png"]]) := by
  have h := (c8_format_token
      { paths := { inputDir := "in", outputDir := "out",
                   tools := { pngquant := "pngquant", mozjpeg := "cjpeg", magick := "magick" } }
        selection := { includeExt := ["png"], excludePatterns := [] }
        pipeline := []
        profiles := fun p => if p = "default" then
            some { pngquant := none, mozjpeg := none,
                   imagemagick_png := some ["-strip", "PNG8:"], imagemagick_jpg := none }
          else none
        options := { recursive := true, preserveTree := false, dryRun := false,
                     concurrency := some 2 }
        logging := { writePerFile := true, csvPath := "log.csv" } }
      "/in/a.png" "/out/a_c.png" "png"
      { name := "imagemagick_compress", enabled := true, matchExt := ["png"],
        suffix := some "_c", profile := "default" }
      { srcSize := some 100, toolResult := Except.ok 5, copyResult := Except.ok (),
        outSize := some 60 } rfl).1 rfl
  exact h.trans (by decide)

/-- C10: in a real (non-dry) run, a step whose profile name is absent
from the configuration — or whose named profile has no entry for the
step's tool — still invokes its tool, with the profile silently treated
as an empty extra-argument list (only the fixed input/output path
arguments are passed), and the step's result is exactly the tool's own
result: no error arises from the missing profile itself. -/
theorem c10_missing_profile (cfg : Config) (inputAbs outFile inExt : String)
    (step : PipelineStep) (se : StepEnv) (hdry : cfg.options.dryRun = false) :
    (step.name = "pngquant" →
      (cfg.profiles step.profile).bind Profile.pngquant = none →
      runStepCore cfg inputAbs outFile inExt step se =
        (se.toolResult,
         [Effect.exec cfg.paths.tools.pngquant ["--output", outFile, inputAbs]])) ∧
    (step.name = "mozjpeg" →
      (cfg.profiles step.profile).bind Profile.mozjpeg = none →
      runStepCore cfg inputAbs outFile inExt step se =
        (se.toolResult,
         [Effect.exec cfg.paths.tools.mozjpeg ["-outfile", outFile, inputAbs]])) ∧
    (step.name = "imagemagick_compress" →
      (cfg.profiles step.profile).bind Profile.imagemagick_png = none →
      (cfg.profiles step.profile).bind Profile.imagemagick_jpg = none →
      runStepCore cfg inputAbs outFile inExt step se =
        (se.toolResult,
         [Effect.exec cfg.paths.tools.magick ["convert", inputAbs, outFile]])) := by
  have base := c8_format_token cfg inputAbs outFile inExt step se hdry
  refine ⟨fun h hp => ?_, fun h hp => ?_, fun h hp hj => ?_⟩
  · rw [base.2.1 h, hp]; rfl
  · rw [base.2.2 h, hp]; rfl
  · rw [base.1 h]
    unfold magickProfArgs
    rw [hp, hj]
    by_cases hx : inExt = "png" <;> simp [hx]

/-- C10 witness: a concrete `pngquant` step whose profile name is not in
the configuration runs anyway with only the path arguments, and its
outcome is the tool's success. -/
theorem c10_missing_profile_witness :
    runStepCore
      { paths := { inputDir := "in", outputDir := "out",
                   tools := { pngquant := "pngquant", mozjpeg := "cjpeg", magick := "magick" } }
        selection := { includeExt := ["png"], excludePatterns := [] }
        pipeline := []
        profiles := fun _ => none
        options := { recursive := true, preserveTree := false, dryRun := false,
                     concurrency := some 2 }
        logging := { writePerFile := true, csvPath := "log.csv" } }
      "/in/a.png" "/out/a_q.png" "png"
      { name := "pngquant", enabled := true, matchExt := ["png"],
        suffix := some "_q", profile := "missing" }
      { srcSize := some 100, toolResult := Except.ok 9, copyResult := Except.ok (),
        outSize := some 60 } =
    (Except.ok 9, [Effect.exec "pngquant" ["--output", "/out/a_q.png", "/in/a.png"]]) :=
  (c10_missing_profile
    { paths := { inputDir := "in", outputDir := "out",
                 tools := { pngquant := "pngquant", mozjpeg := "cjpeg", magick := "magick" } }
      selection := { includeExt := ["png"], excludePatterns := [] }
      pipeline := []
      profiles := fun _ => none
      options := { recursive := true, preserveTree := false, dryRun := false,
                   concurrency := some 2 }
      logging := { writePerFile := true, csvPath := "log.csv" } }
    "/in/a.png" "/out/a_q.png" "png"
    { name := "pngquant", enabled := true, matchExt := ["png"],
      suffix := some "_q", profile := "missing" }
    { srcSize := some 100, toolResult := Except.ok 9, copyResult := Except.ok (),
      outSize := some 60 } rfl).1 rfl rfl

/-! ## Decomposition of the pipeline loop -/

theorem runPipeline_nil (cfg : Config) (env : Env) (inputAbs inRoot outRoot : String)
    (k : Nat) : runPipeline cfg env inputAbs inRoot outRoot [] k = ([], []) := rfl

theorem runPipeline_cons (cfg : Config) (env : Env) (inputAbs inRoot outRoot : String)
    (step : PipelineStep) (rest : List PipelineStep) (k : Nat) :
    runPipeline cfg env inputAbs inRoot outRoot (step :: rest) k =
      if stepExecutes inputAbs step then
        ((runStep cfg inputAbs inRoot outRoot step (env.steps k)).1 ++
           (runPipeline cfg env inputAbs inRoot outRoot rest (k + 1)).1,
         (runStep cfg inputAbs inRoot outRoot step (env.steps k)).2 ++
           (runPipeline cfg env inputAbs inRoot outRoot rest (k + 1)).2)
      else runPipeline cfg env inputAbs inRoot outRoot rest (k + 1) := rfl

/-- Each pipeline entry contributes its own rows, indexed by its
position; the loop is a concatenation over positions. -/
theorem runPipeline_rows (cfg : Config) (env : Env) (inputAbs inRoot outRoot : String)
    (l : List PipelineStep) : ∀ k0 : Nat,
    (runPipeline cfg env inputAbs inRoot outRoot l k0).2 =
      (List.range l.length).flatMap (fun j =>
        match l[j]? with
        | some step =>
          if stepExecutes inputAbs step then
            (runStep cfg inputAbs inRoot outRoot step (env.steps (k0 + j))).2
          else []
        | none => []) := by
  induction l with
  | nil => intro k0; simp [runPipeline_nil]
  | cons step rest ih =>
    intro k0
    have hsplit : (runPipeline cfg env inputAbs inRoot outRoot (step :: rest) k0).2 =
        (if stepExecutes inputAbs step then
          (runStep cfg inputAbs inRoot outRoot step (env.steps k0)).2 else []) ++
        (runPipeline cfg env inputAbs inRoot outRoot rest (k0 + 1)).2 := by
      rw [runPipeline_cons]
      by_cases h : stepExecutes inputAbs step = true <;> simp [h]
    rw [hsplit, ih (k0 + 1), List.length_cons, List.range_succ_eq_map,
      List.flatMap_cons, List.flatMap_map]
    congr 1
    · simp only [List.getElem?_cons_zero, Nat.add_zero]
    · congr 1
      funext j
      rw [show k0 + 1 + j = k0 + (Nat.succ j) from by omega]
      simp only [List.getElem?_cons_succ]

/-- `processOne`'s rows: one block per pipeline position, then the
terminal `ORIGINAL` row. -/
theorem processOne_rows (cfg : Config) (env : Env) (inputAbs : String) :
    (processOne cfg env inputAbs).2 =
      (List.range cfg.pipeline.length).flatMap
        (stepRowsAt cfg env inputAbs (presolve env.cwd cfg.paths.inputDir)
          (presolve env.cwd cfg.paths.outputDir))
      ++ [mkOriginalRow inputAbs env.origSize] := by
  show (runPipeline cfg env inputAbs _ _ cfg.pipeline 0).2 ++ _ = _
  rw [runPipeline_rows]
  congr 1
  have hfun : (fun j => match cfg.pipeline[j]? with
      | some step =>
        if stepExecutes inputAbs step then
          (runStep cfg inputAbs (presolve env.cwd cfg.paths.inputDir)
            (presolve env.cwd cfg.paths.outputDir) step (env.steps (0 + j))).2
        else []
      | none => ([] : List Row)) =
      stepRowsAt cfg env inputAbs (presolve env.cwd cfg.paths.inputDir)
        (presolve env.cwd cfg.paths.outputDir) := by
    funext j
    simp [stepRowsAt, Nat.zero_add]
  rw [hfun]

theorem errText_len_le (e : JsError) : (errText e).length ≤ 300 := by
  have h : (errText e).length =
      ((replNl (jsOr (jsOr (optStr e.stderr) e.message) "").toList).take 300).length := rfl
  rw [h, List.length_take]
  exact min_le_left _ _

theorem replNl_no_nl (l : List Char) : '\n' ∉ replNl l := by
  induction l using ImgTool.replNl.induct with
  | case1 => simp [replNl]
  | case2 rest ih =>
    rw [show replNl ('\x0d' :: '\n' :: rest) = ' ' :: replNl rest from rfl]
    simp only [List.mem_cons]
    rintro (h | h)
    · exact absurd h (by decide)
    · exact ih h
  | case3 rest ih =>
    rw [show replNl ('\n' :: rest) = ' ' :: replNl rest from rfl]
    simp only [List.mem_cons]
    rintro (h | h)
    · exact absurd h (by decide)
    · exact ih h
  | case4 c rest h1 h2 ih =>
    rw [ImgTool.replNl.eq_4 c rest h1 h2]
    simp only [List.mem_cons]
    rintro (h | h)
    · exact h2 h.symm
    · exact ih h

theorem errText_no_nl (e : JsError) : '\n' ∉ (errText e).toList := by
  have h : (errText e).toList =
      (replNl (jsOr (jsOr (optStr e.stderr) e.message) "").toList).take 300 := rfl
  rw [h]
  intro hmem
  exact replNl_no_nl _ (List.mem_of_mem_take hmem)

/-! ## C2: step failures are contained -/

/-- C2, amended: (i) the rows of a run decompose per pipeline position
followed by the terminal row, so no step's outcome removes another
step's block or the terminal row; (ii) a position's block depends only
on that position's environment outcome — a failure at one step cannot
change any other step's rows; (iii) an executed step whose `try` block
raises (tool error or crash, failed dry-run copy, or unknown step name)
contributes exactly one row with `status = error` and the truncated
diagnostic *when per-step logging is enabled*, and no row otherwise;
(iv) the diagnostic is single-line and at most 300 characters.  (A
successfully-invoked step whose output cannot be measured is *not* an
error: it keeps `status = ok` with empty `out_size`, see `runStep`.) -/
theorem c2_failure_contained (cfg : Config) (env : Env) (inputAbs inRoot outRoot : String)
    (hin : inRoot = presolve env.cwd cfg.paths.inputDir)
    (hout : outRoot = presolve env.cwd cfg.paths.outputDir) :
    ((processOne cfg env inputAbs).2 =
      (List.range cfg.pipeline.length).flatMap (stepRowsAt cfg env inputAbs inRoot outRoot)
        ++ [mkOriginalRow inputAbs env.origSize]) ∧
    (∀ env' : Env, ∀ k : Nat, env.steps k = env'.steps k →
      stepRowsAt cfg env inputAbs inRoot outRoot k =
        stepRowsAt cfg env' inputAbs inRoot outRoot k) ∧
    (∀ (k : Nat) (step : PipelineStep) (e : JsError),
      cfg.pipeline[k]? = some step → stepExecutes inputAbs step = true →
      (runStepCore cfg inputAbs (stepOutFile cfg inputAbs inRoot outRoot step)
          (extOf inputAbs) step (env.steps k)).1 = Except.error e →
      stepRowsAt cfg env inputAbs inRoot outRoot k =
        if cfg.logging.writePerFile then
          [mkStepRow (stepOutFile cfg inputAbs inRoot outRoot step) step.name
             (env.steps k).srcSize none 0 "error" (errText e)]
        else []) ∧
    (∀ e : JsError, (errText e).length ≤ 300 ∧ '\n' ∉ (errText e).toList) := by
  subst hin hout
  refine ⟨processOne_rows cfg env inputAbs, ?_, ?_, fun e => ⟨errText_len_le e, errText_no_nl e⟩⟩
  · intro env' k hk
    simp only [stepRowsAt]
    cases cfg.pipeline[k]? with
    | none => rfl
    | some step => rw [hk]
  · intro k step e hk hx hres
    simp only [stepRowsAt, hk, hx, if_true]
    simp only [runStep, hres]

/-- C2, counterexample to the claim as stated: with per-step logging
disabled, an enabled, extension-matching step with an unknown name
fails, yet *no* metrics row with `status = error` is produced — the
run's only row is the terminal `ORIGINAL` row. -/
theorem c2_counterexample :
    (stepExecutes "/in/a.png"
      { name := "bogus", enabled := true, matchExt := ["png"],
        suffix := some "_b", profile := "default" } = true) ∧
    ((runStepCore
        { paths := { inputDir := "in", outputDir := "out",
                     tools := { pngquant := "pngquant", mozjpeg := "cjpeg", magick := "magick" } }
          selection := { includeExt := ["png"], excludePatterns := [] }
          pipeline := [{ name := "bogus", enabled := true, matchExt := ["png"],
                         suffix := some "_b", profile := "default" }]
          profiles := fun _ => none
          options := { recursive := true, preserveTree := false, dryRun := false,
                       concurrency := some 2 }
          logging := { writePerFile := false, csvPath := "log.csv" } }
        "/in/a.png" "/out/a_b.png" "png"
        { name := "bogus", enabled := true, matchExt := ["png"],
          suffix := some "_b", profile := "default" }
        { srcSize := some 5, toolResult := Except.ok 1, copyResult := Except.ok (),
          outSize := some 5 }).1 =
      Except.error { stderr := none, message := "Unknown step: bogus" }) ∧
    ((processOne
        { paths := { inputDir := "in", outputDir := "out",
                     tools := { pngquant := "pngquant", mozjpeg := "cjpeg", magick := "magick" } }
          selection := { includeExt := ["png"], excludePatterns := [] }
          pipeline := [{ name := "bogus", enabled := true, matchExt := ["png"],
                         suffix := some "_b", profile := "default" }]
          profiles := fun _ => none
          options := { recursive := true, preserveTree := false, dryRun := false,
                       concurrency := some 2 }
          logging := { writePerFile := false, csvPath := "log.csv" } }
        { cwd := "/", origSize := some 5,
          steps := fun _ => { srcSize := some 5, toolResult := Except.ok 1,
                              copyResult := Except.ok (), outSize := some 5 } }
        "/in/a.png").2 =
      [mkOriginalRow "/in/a.png" (some 5)]) ∧
    (∀ r ∈ (processOne
        { paths := { inputDir := "in", outputDir := "out",
                     tools := { pngquant := "pngquant", mozjpeg := "cjpeg", magick := "magick" } }
          selection := { includeExt := ["png"], excludePatterns := [] }
          pipeline := [{ name := "bogus", enabled := true, matchExt := ["png"],
                         suffix := some "_b", profile := "default" }]
          profiles := fun _ => none
          options := { recursive := true, preserveTree := false, dryRun := false,
                       concurrency := some 2 }
          logging := { writePerFile := false, csvPath := "log.csv" } }
        { cwd := "/", origSize := some 5,
          steps := fun _ => { srcSize := some 5, toolResult := Except.ok 1,
                              copyResult := Except.ok (), outSize := some 5 } }
        "/in/a.png").2, r.status ≠ "error") := by
  refine ⟨by decide, by decide, by decide, by decide⟩

/-- C2 witness: with logging enabled, the unknown-step failure yields
exactly the error row and leaves the following step's rows and the
terminal row intact. -/
theorem c2_failure_contained_witness :
    stepRowsAt
      { paths := { inputDir := "in", outputDir := "out",
                   tools := { pngquant := "pngquant", mozjpeg := "cjpeg", magick := "magick" } }
        selection := { includeExt := ["png"], excludePatterns := [] }
        pipeline := [{ name := "bogus", enabled := true, matchExt := ["png"],
                       suffix := some "_b", profile := "default" }]
        profiles := fun _ => none
        options := { recursive := true, preserveTree := false, dryRun := false,
                     concurrency := some 2 }
        logging := { writePerFile := true, csvPath := "log.csv" } }
      { cwd := "/", origSize := some 5,
        steps := fun _ => { srcSize := some 5, toolResult := Except.ok 1,
                            copyResult := Except.ok (), outSize := some 5 } }
      "/in/a.png" "/in" "/out" 0 =
    [mkStepRow "/out/a_b.png" "bogus" (some 5) none 0 "error" "Unknown step: bogus"] := by
  have h := (c2_failure_contained
    { paths := { inputDir := "in", outputDir := "out",
                 tools := { pngquant := "pngquant", mozjpeg := "cjpeg", magick := "magick" } }
      selection := { includeExt := ["png"], excludePatterns := [] }
      pipeline := [{ name := "bogus", enabled := true, matchExt := ["png"],
                     suffix := some "_b", profile := "default" }]
      profiles := fun _ => none
      options := { recursive := true, preserveTree := false, dryRun := false,
                   concurrency := some 2 }
      logging := { writePerFile := true, csvPath := "log.csv" } }
    { cwd := "/", origSize := some 5,
      steps := fun _ => { srcSize := some 5, toolResult := Except.ok 1,
                          copyResult := Except.ok (), outSize := some 5 } }
    "/in/a.png" "/in" "/out" (by decide) (by decide)).2.2.1 0
    { name := "bogus", enabled := true, matchExt := ["png"],
      suffix := some "_b", profile := "default" }
    { stderr := none, message := "Unknown step: bogus" } rfl rfl (by decide)
  exact h.trans (by decide)

/-! ## C5: the delta_pct field -/

/-- Every row the pipeline loop emits is some `mkStepRow`. -/
theorem runPipeline_rows_shape (cfg : Config) (env : Env)
    (inputAbs inRoot outRoot : String) (l : List PipelineStep) : ∀ (k0 : Nat),
    ∀ r ∈ (runPipeline cfg env inputAbs inRoot outRoot l k0).2,
      ∃ f st b a ms stt m, r = mkStepRow f st b a ms stt m := by
  induction l with
  | nil => intro k0 r hr; simp [runPipeline_nil] at hr
  | cons step rest ih =>
    intro k0 r hr
    rw [runPipeline_cons] at hr
    by_cases h : stepExecutes inputAbs step = true
    · rw [if_pos h] at hr
      rcases List.mem_append.1 hr with hr1 | hr2
      · simp only [runStep] at hr1
        by_cases hw : cfg.logging.writePerFile = true
        · rw [if_pos hw] at hr1
          cases hc : (runStepCore cfg inputAbs
              (stepOutFile cfg inputAbs inRoot outRoot step) (extOf inputAbs) step
              (env.steps k0)).1 with
          | ok t =>
            rw [hc] at hr1
            simp only [List.mem_singleton] at hr1
            exact ⟨_, _, _, _, _, _, _, hr1⟩
          | error e =>
            rw [hc] at hr1
            simp only [List.mem_singleton] at hr1
            exact ⟨_, _, _, _, _, _, _, hr1⟩
        · rw [if_neg hw] at hr1
          simp at hr1
      · exact ih (k0 + 1) r hr2
    · rw [if_neg h] at hr
      exact ih (k0 + 1) r hr

/-- C5, amended: per-step rows (all of shape `mkStepRow`) carry the
`delta_pct` field `((out - src) / src) * 100` formatted to two decimals
when both sizes are known and the source size is non-zero, and the empty
string when the source size is zero or unknown *or the out size is
unknown (failed step)*; the terminal `ORIGINAL` row instead always
carries the literal `"0.00"`, even when the original size is zero or
unknown.  Every row `processOne` emits is of one of these two shapes. -/
theorem c5_delta_pct (cfg : Config) (env : Env) (inputAbs : String) :
    (∀ (f st : String) (b a : Option Nat) (ms : Nat) (stt m : String),
      (mkStepRow f st b a ms stt m).delta_pct =
        match b, a with
        | some sb, some sa =>
          if sb = 0 then "" else toFixed2 (((sa : ℤ) - (sb : ℤ)) * 100) sb
        | _, _ => "") ∧
    (∀ sz : Option Nat, (mkOriginalRow inputAbs sz).delta_pct = "0.00") ∧
    (∀ r ∈ (processOne cfg env inputAbs).2,
      (∃ f st b a ms stt m, r = mkStepRow f st b a ms stt m) ∨
      r = mkOriginalRow inputAbs env.origSize) := by
  refine ⟨?_, fun _ => rfl, ?_⟩
  · intro f st b a ms stt m
    cases b with
    | none => cases a <;> rfl
    | some sb =>
      cases a with
      | none => rfl
      | some sa => rfl
  · intro r hr
    have hsplit : (processOne cfg env inputAbs).2 =
        (runPipeline cfg env inputAbs (presolve env.cwd cfg.paths.inputDir)
          (presolve env.cwd cfg.paths.outputDir) cfg.pipeline 0).2
        ++ [mkOriginalRow inputAbs env.origSize] := rfl
    rw [hsplit] at hr
    rcases List.mem_append.1 hr with h1 | h2
    · exact Or.inl (runPipeline_rows_shape cfg env inputAbs _ _ cfg.pipeline 0 r h1)
    · exact Or.inr (List.mem_singleton.1 h2)

/-- C5, counterexample to the claim as stated: for a zero-size original
file the terminal `ORIGINAL` row has `src_size = "0"` yet its
`delta_pct` is `"0.00"`, not the empty string the claim requires for a
zero source size. -/
theorem c5_counterexample :
    ((processOne
        { paths := { inputDir := "in", outputDir := "out",
                     tools := { pngquant := "pngquant", mozjpeg := "cjpeg", magick := "magick" } }
          selection := { includeExt := ["png"], excludePatterns := [] }
          pipeline := []
          profiles := fun _ => none
          options := { recursive := true, preserveTree := false, dryRun := false,
                       concurrency := some 2 }
          logging := { writePerFile := true, csvPath := "log.csv" } }
        { cwd := "/", origSize := some 0,
          steps := fun _ => { srcSize := some 0, toolResult := Except.ok 1,
                              copyResult := Except.ok (), outSize := some 0 } }
        "/in/z.png").2 =
      [mkOriginalRow "/in/z.png" (some 0)]) ∧
    (mkOriginalRow "/in/z.png" (some 0)).src_size = "0" ∧
    (mkOriginalRow "/in/z.png" (some 0)).delta_pct = "0.00" ∧
    ("0.00" : String) ≠ "" := by
  refine ⟨by decide, rfl, rfl, by decide⟩

/-- C5 witness: a 100-byte source compressed to 60 bytes gets
`delta_pct = "-40.00"`, and a failed step (unknown out size) gets the
empty string despite a non-zero source. -/
theorem c5_delta_pct_witness :
    (mkStepRow "/out/a_q.png" "pngquant" (some 100) (some 60) 7 "ok" "").delta_pct
      = "-40.00" ∧
    (mkStepRow "/out/a_b.png" "bogus" (some 100) none 0 "error" "x").delta_pct = "" ∧
    (mkOriginalRow "/in/a.png" (some 0)).delta_pct = "0.00" := by
  have h := c5_delta_pct
    { paths := { inputDir := "in", outputDir := "out",
                 tools := { pngquant := "pngquant", mozjpeg := "cjpeg", magick := "magick" } }
      selection := { includeExt := ["png"], excludePatterns := [] }
      pipeline := []
      profiles := fun _ => none
      options := { recursive := true, preserveTree := false, dryRun := false,
                   concurrency := some 2 }
      logging := { writePerFile := true, csvPath := "log.csv" } }
    { cwd := "/", origSize := some 0,
      steps := fun _ => { srcSize := some 0, toolResult := Except.ok 1,
                          copyResult := Except.ok (), outSize := some 0 } }
    "/in/a.png"
  refine ⟨(h.1 "/out/a_q.png" "pngquant" (some 100) (some 60) 7 "ok" "").trans (by decide),
          (h.1 "/out/a_b.png" "bogus" (some 100) none 0 "error" "x").trans (by decide),
          h.2.1 (some 0)⟩

/-! ## C6: file selection -/

/-- C6: an enumerated candidate becomes a task iff its lowercased
extension (via `extOf`, which lower-cases the file's extension before
comparing — extension matching is case-insensitive in the file's
extension and literal in the allow-list entries) is in the allow-list
AND the path relative to the resolved input root contains none of the
exclude substrings (literal, case-sensitive containment). -/
theorem c6_selection (cfg : Config) (cwd : String) (cands : List String) (abs : String)
    (h : abs ∈ cands) :
    abs ∈ tasksOf cfg cwd cands ↔
      (extOf (prelative (presolve cwd cfg.paths.inputDir) abs) ∈ cfg.selection.includeExt ∧
       ∀ pat ∈ cfg.selection.excludePatterns,
         ¬ hasSubstr (prelative (presolve cwd cfg.paths.inputDir) abs) pat = true) := by
  unfold tasksOf
  rw [List.mem_filter]
  simp only [h, true_and, matchFile]
  by_cases hc : cfg.selection.includeExt.contains
      (extOf (prelative (presolve cwd cfg.paths.inputDir) abs)) = true
  · simp only [hc, Bool.not_true, Bool.false_eq_true, if_false, Bool.not_eq_true',
      List.any_eq_false]
    constructor
    · intro hall
      exact ⟨by simpa using hc, fun pat hp => by simp [hall pat hp]⟩
    · intro ⟨_, hall⟩ pat hp
      simpa using hall pat hp
  · simp only [hc, Bool.not_false, if_true]
    constructor
    · intro hfalse; cases hfalse
    · intro ⟨hmem, _⟩
      exact absurd (by simpa using hmem) hc

/-- C6 witness: a file with upper-case extension `.PNG` is selected by
the allow-list entry `png` (case-insensitive extension matching) while
the exclude list is honoured. -/
theorem c6_selection_witness :
    "/in/A.PNG" ∈ tasksOf
      { paths := { inputDir := "in", outputDir := "out",
                   tools := { pngquant := "pngquant", mozjpeg := "cjpeg", magick := "magick" } }
        selection := { includeExt := ["png"], excludePatterns := ["tmp"] }
        pipeline := []
        profiles := fun _ => none
        options := { recursive := true, preserveTree := false, dryRun := true,
                     concurrency := some 2 }
        logging := { writePerFile := true, csvPath := "log.csv" } }
      "/" ["/in/A.PNG"] :=
  (c6_selection
    { paths := { inputDir := "in", outputDir := "out",
                 tools := { pngquant := "pngquant", mozjpeg := "cjpeg", magick := "magick" } }
      selection := { includeExt := ["png"], excludePatterns := ["tmp"] }
      pipeline := []
      profiles := fun _ => none
      options := { recursive := true, preserveTree := false, dryRun := true,
                   concurrency := some 2 }
      logging := { writePerFile := true, csvPath := "log.csv" } }
    "/" ["/in/A.PNG"] "/in/A.PNG" (by decide)).mpr (by decide)

/-! ## C7: every step reads the original input -/

theorem runStepCore_src (cfg : Config) (inputAbs outFile inExt : String)
    (step : PipelineStep) (se : StepEnv) :
    ∀ e ∈ (runStepCore cfg inputAbs outFile inExt step se).2, srcShape inputAbs e := by
  intro e he
  unfold runStepCore at he
  by_cases hd : cfg.options.dryRun = true
  · rw [if_pos hd] at he
    simp only [List.mem_singleton] at he
    subst he
    show inputAbs = inputAbs
    rfl
  · rw [if_neg hd] at he
    by_cases h1 : step.name = "pngquant"
    · rw [if_pos h1] at he
      simp only [List.mem_singleton] at he
      subst he
      exact Or.inl ⟨((cfg.profiles step.profile).bind Profile.pngquant).getD []
        ++ ["--output", outFile], by simp⟩
    · rw [if_neg h1] at he
      by_cases h2 : step.name = "mozjpeg"
      · rw [if_pos h2] at he
        simp only [List.mem_singleton] at he
        subst he
        exact Or.inl ⟨((cfg.profiles step.profile).bind Profile.mozjpeg).getD []
          ++ ["-outfile", outFile], by simp⟩
      · rw [if_neg h2] at he
        by_cases h3 : step.name = "imagemagick_compress"
        · rw [if_pos h3] at he
          simp only [List.mem_singleton] at he
          subst he
          refine Or.inr ⟨(scanFmt (magickProfArgs cfg inExt step)).2 ++
            [match (scanFmt (magickProfArgs cfg inExt step)).1 with
             | some fp => fp ++ outFile
             | none => outFile], by simp⟩
        · rw [if_neg h3] at he
          simp at he

theorem runPipeline_effects_src (cfg : Config) (env : Env)
    (inputAbs inRoot outRoot : String) (l : List PipelineStep) : ∀ (k0 : Nat),
    ∀ e ∈ (runPipeline cfg env inputAbs inRoot outRoot l k0).1, srcShape inputAbs e := by
  induction l with
  | nil => intro k0 e he; simp [runPipeline_nil] at he
  | cons step rest ih =>
    intro k0 e he
    rw [runPipeline_cons] at he
    by_cases h : stepExecutes inputAbs step = true
    · rw [if_pos h] at he
      rcases List.mem_append.1 he with h1 | h2
      · have hrs : (runStep cfg inputAbs inRoot outRoot step (env.steps k0)).1 =
            Effect.ensureDir (pdirname (stepOutFile cfg inputAbs inRoot outRoot step)) ::
            (runStepCore cfg inputAbs (stepOutFile cfg inputAbs inRoot outRoot step)
              (extOf inputAbs) step (env.steps k0)).2 := rfl
        rw [hrs] at h1
        rcases List.mem_cons.1 h1 with he1 | he2
        · subst he1; trivial
        · exact runStepCore_src cfg inputAbs _ _ step (env.steps k0) e he2
      · exact ih (k0 + 1) e h2
    · rw [if_neg h] at he
      exact ih (k0 + 1) e he

/-- C7: every side effect of a `processOne` run reads its
transformation source from the file's original absolute input path:
dry-run copies copy the original, and each tool invocation carries the
original input path in its source slot — never the output of an earlier
step. -/
theorem c7_source_is_original (cfg : Config) (env : Env) (inputAbs : String) :
    ∀ e ∈ (processOne cfg env inputAbs).1, srcShape inputAbs e := by
  intro e he
  have hp : (processOne cfg env inputAbs).1 =
      (runPipeline cfg env inputAbs (presolve env.cwd cfg.paths.inputDir)
        (presolve env.cwd cfg.paths.outputDir) cfg.pipeline 0).1 := rfl
  rw [hp] at he
  exact runPipeline_effects_src cfg env inputAbs _ _ cfg.pipeline 0 e he

/-- C7 witness: in a dry run with one enabled matching step, the copy
effect reads the original input path. -/
theorem c7_source_is_original_witness :
    srcShape "/in/a.png" (Effect.copy "/in/a.png" "/out/a_s.png") :=
  c7_source_is_original
    { paths := { inputDir := "in", outputDir := "out",
                 tools := { pngquant := "pngquant", mozjpeg := "cjpeg", magick := "magick" } }
      selection := { includeExt := ["png"], excludePatterns := [] }
      pipeline := [{ name := "pngquant", enabled := true, matchExt := ["png"],
                     suffix := some "_s", profile := "default" }]
      profiles := fun _ => none
      options := { recursive := true, preserveTree := false, dryRun := true,
                   concurrency := some 2 }
      logging := { writePerFile := true, csvPath := "log.csv" } }
    { cwd := "/", origSize := some 5,
      steps := fun _ => { srcSize := some 5, toolResult := Except.ok 1,
                          copyResult := Except.ok (), outSize := some 5 } }
    "/in/a.png" (Effect.copy "/in/a.png" "/out/a_s.png") (by decide)

/-! ## C1: exactly-once task processing under concurrency -/

theorem perm_swap_prefix {α : Type _} (a b c : List α) :
    List.Perm (a ++ (b ++ c)) (b ++ (a ++ c)) := by
  rw [← List.append_assoc, ← List.append_assoc]
  exact (List.perm_append_comm).append_right c

theorem mem_set_cases {α : Type _} (l : List α) :
    ∀ (n : Nat) (b a : α), a ∈ l.set n b → a ∈ l ∨ a = b := by
  induction l with
  | nil => intro n b a h; simp [List.set] at h
  | cons x xs ih =>
    intro n b a h
    cases n with
    | zero =>
      rcases List.mem_cons.1 h with h1 | h2
      · exact Or.inr h1
      · exact Or.inl (List.mem_cons_of_mem x h2)
    | succ m =>
      rcases List.mem_cons.1 h with h1 | h2
      · exact Or.inl (h1 ▸ List.mem_cons_self x xs)
      · rcases ih m b a h2 with h3 | h3
        · exact Or.inl (List.mem_cons_of_mem x h3)
        · exact Or.inr h3

theorem flattenClaims_set_perm (l : List WorkerSt) :
    ∀ (j : Nat) (x : WorkerSt), j < l.length →
    List.Perm (((l.set j x).map WorkerSt.claimed).flatten)
      (x.claimed ++ (((l.eraseIdx j).map WorkerSt.claimed).flatten)) := by
  induction l with
  | nil => intro j x hj; simp at hj
  | cons w ws ih =>
    intro j x hj
    cases j with
    | zero => simp
    | succ m =>
      have hm : m < ws.length := by simpa using Nat.lt_of_succ_lt_succ hj
      have step1 := (ih m x hm).append_left w.claimed
      have step2 := perm_swap_prefix w.claimed x.claimed
        (((ws.eraseIdx m).map WorkerSt.claimed).flatten)
      simpa using step1.trans step2

theorem flattenClaims_get_perm (l : List WorkerSt) :
    ∀ (j : Nat) (hj : j < l.length),
    List.Perm ((l.map WorkerSt.claimed).flatten)
      ((l.get ⟨j, hj⟩).claimed ++ (((l.eraseIdx j).map WorkerSt.claimed).flatten)) := by
  induction l with
  | nil => intro j hj; simp at hj
  | cons w ws ih =>
    intro j hj
    cases j with
    | zero => simp
    | succ m =>
      have hm : m < ws.length := by simpa using Nat.lt_of_succ_lt_succ hj
      have step1 := (ih m hm).append_left w.claimed
      have step2 := perm_swap_prefix w.claimed ((ws.get ⟨m, hm⟩).claimed)
        (((ws.eraseIdx m).map WorkerSt.claimed).flatten)
      simpa using step1.trans step2

/-- The scheduler invariant: the worker count is fixed, the claimed
indices over the whole pool are exactly `0 … min idx len - 1`, each
once, and a halted worker witnesses that the counter has passed the
task count. -/
theorem sched_inv (n len : Nat) (s : SchedSt)
    (hreach : Relation.ReflTransGen (SchedStep len) (initSched n) s) :
    s.workers.length = n ∧
    List.Perm (claimedAll s) (List.range (min s.idx len)) ∧
    (∀ w ∈ s.workers, w.halted = true → len < s.idx) := by
  induction hreach with
  | refl =>
    refine ⟨by simp [initSched], ?_, ?_⟩
    · have hflat : (claimedAll (initSched n)) = [] := by
        unfold claimedAll initSched
        simp only [List.map_replicate]
        induction n with
        | zero => rfl
        | succ m ihm => simp [ihm]
      rw [hflat]
      simp [initSched]
    · intro w hw
      have := List.eq_of_mem_replicate hw
      rw [this]
      intro hcontr
      cases hcontr
  | @tail s c hab hbc ih =>
    obtain ⟨hlen, hperm, hhalt⟩ := ih
    cases hbc with
    | claim w hact =>
      set u := claimUpdate len s.idx (s.workers.get w) with hu
      have hwlt : (w : Nat) < s.workers.length := w.isLt
      have hset := flattenClaims_set_perm s.workers w u hwlt
      have hget := flattenClaims_get_perm s.workers w hwlt
      have hget' : List.Perm
          ((s.workers.get w).claimed ++ (((s.workers.eraseIdx w).map WorkerSt.claimed).flatten))
          (List.range (min s.idx len)) := hget.symm.trans hperm
      refine ⟨by simpa using hlen, ?_, ?_⟩
      · show List.Perm (((s.workers.set w u).map WorkerSt.claimed).flatten) _
        by_cases hlt : s.idx < len
        · have hmin1 : min s.idx len = s.idx := Nat.min_eq_left (Nat.le_of_lt hlt)
          have hmin2 : min (s.idx + 1) len = s.idx + 1 :=
            Nat.min_eq_left (Nat.succ_le_of_lt hlt)
          have huc : u.claimed = (s.workers.get w).claimed ++ [s.idx] := by
            rw [hu]; unfold claimUpdate; rw [if_pos hlt]
          rw [hmin2, List.range_succ]
          rw [hmin1] at hget'
          refine hset.trans ?_
          rw [huc]
          have hswap : List.Perm
              (((s.workers.get w).claimed ++ [s.idx]) ++
                (((s.workers.eraseIdx w).map WorkerSt.claimed).flatten))
              (((s.workers.get w).claimed ++
                (((s.workers.eraseIdx w).map WorkerSt.claimed).flatten)) ++ [s.idx]) := by
            rw [List.append_assoc, List.append_assoc]
            exact (List.perm_append_comm).append_left (s.workers.get w).claimed
          exact hswap.trans (hget'.append_right [s.idx])
        · have hle : len ≤ s.idx := Nat.le_of_not_lt hlt
          have hmin1 : min s.idx len = len := Nat.min_eq_right hle
          have hmin2 : min (s.idx + 1) len = len :=
            Nat.min_eq_right (Nat.le_succ_of_le hle)
          have huc : u.claimed = (s.workers.get w).claimed := by
            rw [hu]; unfold claimUpdate; rw [if_neg hlt]
          rw [hmin2, ← hmin1]
          refine hset.trans ?_
          rw [huc]
          exact hget'
      · intro w' hw' hhalted
        rcases mem_set_cases _ _ _ _ hw' with hmem | heq
        · exact Nat.lt_succ_of_lt (hhalt w' hmem hhalted)
        · by_cases hlt : s.idx < len
          · exfalso
            have : w'.halted = false := by
              rw [heq, hu]; unfold claimUpdate; rw [if_pos hlt]
            rw [this] at hhalted
            cases hhalted
          · exact Nat.lt_succ_of_le (Nat.le_of_not_lt hlt)

/-- C1: for every configured concurrency value (the pool size is
`max 1 (concurrency || 2)`, hence at least one worker) and every
interleaved execution of the worker pool that reaches a state where
every worker has exhausted the task list, the multiset of claimed (and
hence processed) task indices is exactly `0 … len - 1`, each exactly
once — no task claimed by two workers, none processed twice, none
dropped, regardless of per-file outcomes (which the step relation never
consults). -/
theorem c1_tasks_processed_exactly_once (copt : Option Nat) (len : Nat) (s : SchedSt)
    (hreach : Relation.ReflTransGen (SchedStep len) (initSched (concOf copt)) s)
    (hdone : allHalted s) :
    List.Perm (claimedAll s) (List.range len) := by
  obtain ⟨hlen, hperm, hhalt⟩ := sched_inv (concOf copt) len s hreach
  have hn : 1 ≤ concOf copt := le_max_left 1 _
  have hne : s.workers ≠ [] := by
    intro hcontr
    rw [hcontr] at hlen
    simp at hlen
    omega
  obtain ⟨w0, hw0⟩ := List.exists_mem_of_ne_nil s.workers hne
  have hlt : len < s.idx := hhalt w0 hw0 (hdone w0 hw0)
  have hmin : min s.idx len = len := Nat.min_eq_right (Nat.le_of_lt hlt)
  rwa [hmin] at hperm

/-- C1 witness: one worker, one task; the worker claims index 0,
processes it, then claims index 1 and halts; the claimed indices are
exactly `[0]`. -/
theorem c1_tasks_processed_exactly_once_witness :
    List.Perm (claimedAll ⟨2, [⟨[0], true⟩]⟩) (List.range 1) := by
  have st1 : SchedStep 1 (initSched (concOf (some 1))) ⟨1, [⟨[0], false⟩]⟩ :=
    SchedStep.claim (initSched (concOf (some 1))) ⟨0, by decide⟩ (by decide)
  have st2 : SchedStep 1 (⟨1, [⟨[0], false⟩]⟩ : SchedSt) ⟨2, [⟨[0], true⟩]⟩ :=
    SchedStep.claim (⟨1, [⟨[0], false⟩]⟩ : SchedSt) ⟨0, by decide⟩ (by decide)
  exact c1_tasks_processed_exactly_once (some 1) 1 ⟨2, [⟨[0], true⟩]⟩
    (Relation.ReflTransGen.tail (Relation.ReflTransGen.tail Relation.ReflTransGen.refl st1) st2)
    (by intro w hw; rw [List.mem_singleton.1 hw])

end ImgTool
